import Mathlib

/-!
Verification of the `no-inner-declarations` lint rule
(src/rules/no_inner_declarations.rs).

The rule runs two passes over a syntax tree:

* `ValidDeclsVisitor` (a `VisitAll` visitor) collects the spans of every
  function declaration and every `var`-kind variable declaration that sits
  directly in a root statement/item list (script top level, module top level
  with export unwrapping, or the body of a function, constructor, or
  block-bodied arrow function), into a `HashSet<Span>`.
* `NoInnerDeclarationsVisitor` (a `Visit` visitor) walks the tree carrying a
  single `in_function : bool` flag, and emits a diagnostic for every
  function declaration and every `var`-kind variable declaration whose span
  is absent from the collected set.

The embedding below models the relevant fragment of the swc AST as a pair of
mutually inductive types (`Ast` for nodes, `AstL` for node lists).  Node
kinds that neither pass inspects (literals, identifiers, patterns, import
items, ...) are collapsed into inert constructors (`exprOther`, `emptyS`,
`moduleOther`, `declOther`, `memberOther`).  An absent optional body
(`Option<BlockStmt>` being `None` in the source) is modelled as an empty
statement list: both passes treat a missing body and an empty body
identically (`check_stmts` of `[]` does nothing, and visiting no children
does nothing).  Spans are modelled as natural numbers; each declaration
node carries its span explicitly, and both passes consult the same field,
exactly as both Rust visitors call the same `.span()` method.
-/

set_option linter.unreachableTactic false
set_option linter.unusedTactic false

namespace NoInnerDecl

/-- Kind of a variable declaration, mirroring `VarDeclKind` (`var`, `let`,
`const`) from the swc AST. -/
inductive VarKind : Type where
| varKind
| letKind
| constKind
deriving DecidableEq, Repr

mutual
/-- A syntax-tree node.  Constructors follow the swc node kinds that the two
visitors of the rule distinguish; children are listed in the field order of
the corresponding swc structs, which is the order the generated visitors
traverse them in. -/
inductive Ast : Type where
| module (items : AstL)
| script (stmts : AstL)
| exportDecl (d : Ast)
| exportDefaultFn (span : Nat) (body : AstL)
| moduleOther
| fnDecl (span : Nat) (body : AstL)
| varDecl (kind : VarKind) (span : Nat) (inits : AstL)
| classDecl (members : AstL)
| declOther
| block (stmts : AstL)
| ifS (cond : Ast) (cons : Ast) (alt : Ast)
| whileS (cond : Ast) (body : Ast)
| doWhileS (cond : Ast) (body : Ast)
| forS (ini : Ast) (test : Ast) (update : Ast) (body : Ast)
| forInS (left : Ast) (right : Ast) (body : Ast)
| exprStmt (e : Ast)
| emptyS
| fnExpr (body : AstL)
| arrowBlock (stmts : AstL)
| arrowExprBody (e : Ast)
| classExpr (members : AstL)
| objLit (props : AstL)
| call (callee : Ast) (args : AstL)
| exprOther
| ctorMember (body : AstL)
| methodMember (body : AstL)
| memberOther
/-- A list of syntax-tree nodes. -/
inductive AstL : Type where
| nil
| cons (a : Ast) (l : AstL)
end

/-- Conversion from an ordinary list, used to write concrete trees. -/
def astl : List Ast → AstL
| [] => .nil
| a :: l => .cons a (astl l)

/-- Embedding of `ValidDeclsVisitor::check_decl`: a function declaration is
always recorded; a variable declaration is recorded when its kind is `var`;
every other declaration kind is ignored. -/
def checkDecl : Ast → List Nat
| .fnDecl s _ => [s]
| .varDecl k s _ => if k = VarKind.varKind then [s] else []
| _ => []

/-- Embedding of `ValidDeclsVisitor::check_stmts`: apply `check_decl` to
every declaration statement of a statement list. -/
def checkStmts : AstL → List Nat
| .nil => []
| .cons a l => checkDecl a ++ checkStmts l

/-- Embedding of the per-item match in `ValidDeclsVisitor::visit_module_item`:
an `export` declaration is unwrapped and checked, a default-exported
function expression is recorded unconditionally, other module declarations
are ignored, and a plain statement item is checked like a script statement. -/
def moduleItemCheck : Ast → List Nat
| .exportDecl d => checkDecl d
| .exportDefaultFn s _ => [s]
| .moduleOther => []
| a => checkDecl a

/-- The `visit_module_item` handler applied to every item of a module body. -/
def moduleChecksL : AstL → List Nat
| .nil => []
| .cons a l => moduleItemCheck a ++ moduleChecksL l

mutual
/-- Embedding of the `VisitAll` pass of `ValidDeclsVisitor`: the handler
contribution at the node (`visit_script`, `visit_module_item`,
`visit_function`, `visit_constructor`, `visit_arrow_expr`) followed by the
contributions of all children, in traversal order.  The spans are collected
into a list; the `HashSet` of the source is its set of members. -/
def collectA : Ast → List Nat
| .module items => moduleChecksL items ++ collectL items
| .script stmts => checkStmts stmts ++ collectL stmts
| .exportDecl d => collectA d
| .exportDefaultFn _ body => checkStmts body ++ collectL body
| .moduleOther => []
| .fnDecl _ body => checkStmts body ++ collectL body
| .varDecl _ _ inits => collectL inits
| .classDecl members => collectL members
| .declOther => []
| .block stmts => collectL stmts
| .ifS c t e => collectA c ++ collectA t ++ collectA e
| .whileS c b => collectA c ++ collectA b
| .doWhileS c b => collectA c ++ collectA b
| .forS i t u b => collectA i ++ collectA t ++ collectA u ++ collectA b
| .forInS l r b => collectA l ++ collectA r ++ collectA b
| .exprStmt e => collectA e
| .emptyS => []
| .fnExpr body => checkStmts body ++ collectL body
| .arrowBlock stmts => checkStmts stmts ++ collectL stmts
| .arrowExprBody e => collectA e
| .classExpr members => collectL members
| .objLit props => collectL props
| .call f args => collectA f ++ collectL args
| .exprOther => []
| .ctorMember body => checkStmts body ++ collectL body
| .methodMember body => checkStmts body ++ collectL body
| .memberOther => []
/-- Collector pass over a node list. -/
def collectL : AstL → List Nat
| .nil => []
| .cons a l => collectA a ++ collectL l
end

/-- A diagnostic record as handed to `Context::add_diagnostic_with_hint`:
source span, rule code, message, and hint. -/
structure Diag : Type where
  span : Nat
  code : String
  message : String
  hint : String
deriving DecidableEq, Repr

/-- Embedding of `NoInnerDeclarationsVisitor::add_diagnostic`: the root name
is `"function"` when `in_function` is set and `"module"` otherwise; the
message is the `Display` rendering of `NoInnerDeclarationsMessage::Move` and
the hint the rendering of `NoInnerDeclarationsHint::Move`. -/
def mkDiag (inFn : Bool) (s : Nat) (kind : String) : Diag :=
  { span := s
    code := "no-inner-declarations"
    message :=
      "Move " ++ kind ++ " declaration to "
        ++ (if inFn then "function" else "module") ++ " root"
    hint := "Move the declaration up into the correct scope" }

mutual
/-- Embedding of the `Visit` pass of `NoInnerDeclarationsVisitor` with the
collected valid set `valid` and the current `in_function` flag `b`.  The
overridden methods are `visit_arrow_expr` and `visit_function` (which set
the flag for their children; the save/restore of the mutable flag in the
source becomes the purely local flag argument here), and `visit_fn_decl`
and `visit_var_decl` (which emit a diagnostic when the span is absent from
`valid` and then visit their children).  Every other node kind uses the
default method, which visits the children in field order with the flag
unchanged; in particular `visit_constructor` is not overridden, so a
constructor body is traversed with the flag unchanged. -/
def scanA (valid : List Nat) (b : Bool) : Ast → List Diag
| .module items => scanL valid b items
| .script stmts => scanL valid b stmts
| .exportDecl d => scanA valid b d
| .exportDefaultFn _ body => scanL valid true body
| .moduleOther => []
| .fnDecl s body =>
    (if s ∈ valid then [] else [mkDiag b s "function"]) ++ scanL valid true body
| .varDecl k s inits =>
    (if k = VarKind.varKind ∧ ¬ s ∈ valid then [mkDiag b s "variable"] else [])
      ++ scanL valid b inits
| .classDecl members => scanL valid b members
| .declOther => []
| .block stmts => scanL valid b stmts
| .ifS c t e => scanA valid b c ++ scanA valid b t ++ scanA valid b e
| .whileS c bd => scanA valid b c ++ scanA valid b bd
| .doWhileS c bd => scanA valid b c ++ scanA valid b bd
| .forS i t u bd =>
    scanA valid b i ++ scanA valid b t ++ scanA valid b u ++ scanA valid b bd
| .forInS l r bd => scanA valid b l ++ scanA valid b r ++ scanA valid b bd
| .exprStmt e => scanA valid b e
| .emptyS => []
| .fnExpr body => scanL valid true body
| .arrowBlock stmts => scanL valid true stmts
| .arrowExprBody e => scanA valid true e
| .classExpr members => scanL valid b members
| .objLit props => scanL valid b props
| .call f args => scanA valid b f ++ scanL valid b args
| .exprOther => []
| .ctorMember body => scanL valid b body
| .methodMember body => scanL valid true body
| .memberOther => []
/-- Scanner pass over a node list. -/
def scanL (valid : List Nat) (b : Bool) : AstL → List Diag
| .nil => []
| .cons a l => scanA valid b a ++ scanL valid b l
end

/-- Embedding of `NoInnerDeclarations::lint_program` restricted to the
diagnostics this rule itself produces: run the collector, then run the
scanner with `in_function` initially `false`. -/
def lintDiags (p : Ast) : List Diag :=
  scanA (collectA p) false p

/-! ### Specification-side inventory of declaration nodes

The claims speak about declaration nodes "at a root position", "in a for
loop head", "nested inside a function", and so on.  To state them we
instrument the scanner's traversal: `invA` walks the tree in exactly the
scanner's order and flag discipline, but instead of emitting diagnostics it
records one entry per declaration node (function declarations, variable
declarations of every kind, and default-exported function expressions),
together with the node's structural position and the `in_function` flag the
scanner holds when it reaches the node. -/

/-- Structural position of a declaration node relative to its immediately
enclosing statement/item list: directly in a module's top item list
(`mTop`), unwrapped from an `export` at the module top (`exportPos`),
directly in a script's top statement list (`sTop`), directly in the body of
a function, constructor, or block-bodied arrow function (`fnRoot`), in a
`for`/`for-in`/`for-of` loop head (`forHead`), or anywhere else
(`innerPos`). -/
inductive Pos : Type where
| mTop
| sTop
| fnRoot
| exportPos
| forHead
| innerPos
deriving DecidableEq, Repr

/-- What kind of declaration node an inventory entry records. -/
inductive Tag : Type where
| fnTag
| varTag (k : VarKind)
| defaultFnTag
deriving DecidableEq, Repr

/-- One inventory entry: the node's span, its kind, its structural
position, and the scanner's `in_function` flag at the node. -/
structure Entry : Type where
  span : Nat
  tag : Tag
  pos : Pos
  inFn : Bool
deriving DecidableEq, Repr

mutual
/-- Inventory traversal: the same walk as `scanA` (same order, same
`in_function` discipline), recording every declaration node with its
structural position.  The `p` argument is the position that the node itself
occupies; children positions are fixed by the node kind. -/
def invA (b : Bool) (p : Pos) : Ast → List Entry
| .module items => invL b .mTop items
| .script stmts => invL b .sTop stmts
| .exportDecl d => invA b (if p = Pos.mTop then Pos.exportPos else Pos.innerPos) d
| .exportDefaultFn s body => ⟨s, .defaultFnTag, p, b⟩ :: invL true .fnRoot body
| .moduleOther => []
| .fnDecl s body => ⟨s, .fnTag, p, b⟩ :: invL true .fnRoot body
| .varDecl k s inits => ⟨s, .varTag k, p, b⟩ :: invL b .innerPos inits
| .classDecl members => invL b .innerPos members
| .declOther => []
| .block stmts => invL b .innerPos stmts
| .ifS c t e => invA b .innerPos c ++ invA b .innerPos t ++ invA b .innerPos e
| .whileS c bd => invA b .innerPos c ++ invA b .innerPos bd
| .doWhileS c bd => invA b .innerPos c ++ invA b .innerPos bd
| .forS i t u bd =>
    invA b .forHead i ++ invA b .innerPos t ++ invA b .innerPos u
      ++ invA b .innerPos bd
| .forInS l r bd => invA b .forHead l ++ invA b .innerPos r ++ invA b .innerPos bd
| .exprStmt e => invA b .innerPos e
| .emptyS => []
| .fnExpr body => invL true .fnRoot body
| .arrowBlock stmts => invL true .fnRoot stmts
| .arrowExprBody e => invA true .innerPos e
| .classExpr members => invL b .innerPos members
| .objLit props => invL b .innerPos props
| .call f args => invA b .innerPos f ++ invL b .innerPos args
| .exprOther => []
| .ctorMember body => invL b .fnRoot body
| .methodMember body => invL true .fnRoot body
| .memberOther => []
/-- Inventory traversal over a node list; every element occupies position
`p`. -/
def invL (b : Bool) (p : Pos) : AstL → List Entry
| .nil => []
| .cons a l => invA b p a ++ invL b p l
end

/-- Inventory of a whole tree, with the scanner's initial flag. -/
def lintInv (p : Ast) : List Entry :=
  invA false .innerPos p

/-- Whether an entry is a node the scanner's overridden methods test against
the valid set: a function declaration or a `var`-kind variable
declaration. -/
def qualTag : Tag → Bool
| .fnTag => true
| .varTag k => k = VarKind.varKind
| .defaultFnTag => false

/-- The diagnostic (if any) that the scanner emits at the node an entry
records, given the valid set: a qualifying node whose span is absent from
the set yields the diagnostic built by `add_diagnostic` from the node's span
and the flag at the node. -/
def emit (valid : List Nat) (e : Entry) : Option Diag :=
  match e.tag with
  | .fnTag => if e.span ∈ valid then none else some (mkDiag e.inFn e.span "function")
  | .varTag k =>
      if k = VarKind.varKind ∧ ¬ e.span ∈ valid then
        some (mkDiag e.inFn e.span "variable")
      else none
  | .defaultFnTag => none

/-- Whether an entry's position lets `check_decl` reach it: the collector
calls `check_decl` exactly on declarations directly in a root list (module
top, possibly unwrapped from an export; script top; function-like body
root). -/
def rootPos : Pos → Bool
| .mTop => true
| .sTop => true
| .fnRoot => true
| .exportPos => true
| .forHead => false
| .innerPos => false

/-- Boolean test for the `var` kind. -/
def isVarKind : VarKind → Bool
| .varKind => true
| .letKind => false
| .constKind => false

/-- Boolean test for the module-top position. -/
def isMTop : Pos → Bool
| .mTop => true
| _ => false

/-- Whether an entry records a node that the collector inserts into the
valid set: a function declaration at a root position, a `var`-kind variable
declaration at a root position, or a default-exported function expression
at the module top. -/
def goodEntry (e : Entry) : Bool :=
  match e.tag with
  | .fnTag => rootPos e.pos
  | .varTag k => isVarKind k && rootPos e.pos
  | .defaultFnTag => isMTop e.pos

/-- Spans of declaration nodes sitting directly at the module/script top
level (including export-wrapped ones and default-exported functions). -/
def topDeclSpans (p : Ast) : List Nat :=
  ((lintInv p).filter fun e =>
    e.pos = Pos.mTop || e.pos = Pos.sTop || e.pos = Pos.exportPos).map Entry.span

/-- Spans of `let`/`const` variable declarations anywhere in the tree. -/
def letConstSpans (p : Ast) : List Nat :=
  ((lintInv p).filter fun e =>
    e.tag = Tag.varTag VarKind.letKind || e.tag = Tag.varTag VarKind.constKind).map
    Entry.span

/-- Spans of `var`-kind variable declarations sitting in a
`for`/`for-in`/`for-of` loop head. -/
def forHeadVarSpans (p : Ast) : List Nat :=
  ((lintInv p).filter fun e =>
    e.tag = Tag.varTag VarKind.varKind && e.pos = Pos.forHead).map Entry.span

/-- Well-formedness of a tree as an swc parser output: spans identify nodes,
so no two declaration nodes share a span. -/
def WfSpans (p : Ast) : Prop :=
  ((lintInv p).map Entry.span).Nodup

instance (p : Ast) : Decidable (WfSpans p) := by
  unfold WfSpans; infer_instance

/-! ### The scanner with the diagnostic context made explicit

`lint_program` receives a mutable `Context` into which
`add_diagnostic_with_hint` pushes diagnostics.  `scanCtxA` threads that
context explicitly: it is the same traversal as `scanA`, taking the list of
diagnostics accumulated so far and returning the extended list. -/

mutual
/-- Context-threading form of the scanner: `ctx` is the diagnostic context
(the list of already-submitted diagnostics); each visit appends its
diagnostic, if any, before visiting children. -/
def scanCtxA (valid : List Nat) (b : Bool) (ctx : List Diag) : Ast → List Diag
| .module items => scanCtxL valid b ctx items
| .script stmts => scanCtxL valid b ctx stmts
| .exportDecl d => scanCtxA valid b ctx d
| .exportDefaultFn _ body => scanCtxL valid true ctx body
| .moduleOther => ctx
| .fnDecl s body =>
    scanCtxL valid true
      (if s ∈ valid then ctx else ctx ++ [mkDiag b s "function"]) body
| .varDecl k s inits =>
    scanCtxL valid b
      (if k = VarKind.varKind ∧ ¬ s ∈ valid then ctx ++ [mkDiag b s "variable"]
       else ctx) inits
| .classDecl members => scanCtxL valid b ctx members
| .declOther => ctx
| .block stmts => scanCtxL valid b ctx stmts
| .ifS c t e => scanCtxA valid b (scanCtxA valid b (scanCtxA valid b ctx c) t) e
| .whileS c bd => scanCtxA valid b (scanCtxA valid b ctx c) bd
| .doWhileS c bd => scanCtxA valid b (scanCtxA valid b ctx c) bd
| .forS i t u bd =>
    scanCtxA valid b
      (scanCtxA valid b (scanCtxA valid b (scanCtxA valid b ctx i) t) u) bd
| .forInS l r bd => scanCtxA valid b (scanCtxA valid b (scanCtxA valid b ctx l) r) bd
| .exprStmt e => scanCtxA valid b ctx e
| .emptyS => ctx
| .fnExpr body => scanCtxL valid true ctx body
| .arrowBlock stmts => scanCtxL valid true ctx stmts
| .arrowExprBody e => scanCtxA valid true ctx e
| .classExpr members => scanCtxL valid b ctx members
| .objLit props => scanCtxL valid b ctx props
| .call f args => scanCtxL valid b (scanCtxA valid b ctx f) args
| .exprOther => ctx
| .ctorMember body => scanCtxL valid b ctx body
| .methodMember body => scanCtxL valid true ctx body
| .memberOther => ctx
/-- Context-threading scanner over a node list. -/
def scanCtxL (valid : List Nat) (b : Bool) (ctx : List Diag) : AstL → List Diag
| .nil => ctx
| .cons a l => scanCtxL valid b (scanCtxA valid b ctx a) l
end

/-- Embedding of `NoInnerDeclarations::lint_program` with the diagnostic
context explicit: a fresh `ValidDeclsVisitor` collects the valid set, then a
fresh `NoInnerDeclarationsVisitor` (with `in_function = false`) scans the
same tree, pushing its diagnostics onto the context. -/
def lintProgram (ctx : List Diag) (p : Ast) : List Diag :=
  scanCtxA (collectA p) false ctx p

/-! ### A collector that traverses in the opposite order

`collectRevA` performs the same classification as `collectA` but visits
every child list in reverse and applies each handler after the children
instead of before.  It witnesses that the collected set does not depend on
the traversal order. -/

/-- The `check_decl` handler folded over a reversed statement list. -/
def checkStmtsRev : AstL → List Nat
| .nil => []
| .cons a l => checkStmtsRev l ++ checkDecl a

/-- The `visit_module_item` handler folded over a reversed item list. -/
def moduleChecksRevL : AstL → List Nat
| .nil => []
| .cons a l => moduleChecksRevL l ++ moduleItemCheck a

mutual
/-- Collector traversing children in reverse order, handlers after
children. -/
def collectRevA : Ast → List Nat
| .module items => collectRevL items ++ moduleChecksRevL items
| .script stmts => collectRevL stmts ++ checkStmtsRev stmts
| .exportDecl d => collectRevA d
| .exportDefaultFn _ body => collectRevL body ++ checkStmtsRev body
| .moduleOther => []
| .fnDecl _ body => collectRevL body ++ checkStmtsRev body
| .varDecl _ _ inits => collectRevL inits
| .classDecl members => collectRevL members
| .declOther => []
| .block stmts => collectRevL stmts
| .ifS c t e => collectRevA e ++ collectRevA t ++ collectRevA c
| .whileS c b => collectRevA b ++ collectRevA c
| .doWhileS c b => collectRevA b ++ collectRevA c
| .forS i t u b => collectRevA b ++ collectRevA u ++ collectRevA t ++ collectRevA i
| .forInS l r b => collectRevA b ++ collectRevA r ++ collectRevA l
| .exprStmt e => collectRevA e
| .emptyS => []
| .fnExpr body => collectRevL body ++ checkStmtsRev body
| .arrowBlock stmts => collectRevL stmts ++ checkStmtsRev stmts
| .arrowExprBody e => collectRevA e
| .classExpr members => collectRevL members
| .objLit props => collectRevL props
| .call f args => collectRevL args ++ collectRevA f
| .exprOther => []
| .ctorMember body => collectRevL body ++ checkStmtsRev body
| .methodMember body => collectRevL body ++ checkStmtsRev body
| .memberOther => []
/-- Reversed collector over a node list. -/
def collectRevL : AstL → List Nat
| .nil => []
| .cons a l => collectRevL l ++ collectRevA a
end

/-! ### Small auxiliary functions for the statements and proofs -/

/-- Message word of a declaration kind, as passed to `add_diagnostic` at the
two call sites of the scanner. -/
def kindStr : Tag → String
| .fnTag => "function"
| .varTag _ => "variable"
| .defaultFnTag => ""

/-- What `check_decl` contributes for a node occupying position `p`: the
collector reaches a declaration through its handlers exactly when the
declaration sits at a root position, and through `visit_module_item` when it
is (possibly export-wrapped) at the module top. -/
def checksFor (p : Pos) : Ast → List Nat
| .fnDecl s _ => if rootPos p = true then [s] else []
| .varDecl k s _ =>
    if rootPos p = true then (if k = VarKind.varKind then [s] else []) else []
| .exportDefaultFn s _ => if isMTop p = true then [s] else []
| .exportDecl d => if isMTop p = true then checkDecl d else []
| _ => []

/-- Handler contributions for all elements of a list at position `p`. -/
def checksForL (p : Pos) : AstL → List Nat
| .nil => []
| .cons a l => checksFor p a ++ checksForL p l

theorem isVarKind_iff (k : VarKind) : isVarKind k = true ↔ k = VarKind.varKind := by
  cases k <;> simp [isVarKind]

theorem isMTop_iff (p : Pos) : isMTop p = true ↔ p = Pos.mTop := by
  cases p <;> simp [isMTop]

theorem checksFor_sTop (a : Ast) : checksFor Pos.sTop a = checkDecl a := by
  cases a <;> simp [checksFor, checkDecl, rootPos, isMTop]

theorem checksFor_fnRoot (a : Ast) : checksFor Pos.fnRoot a = checkDecl a := by
  cases a <;> simp [checksFor, checkDecl, rootPos, isMTop]

theorem checksFor_exportPos (a : Ast) : checksFor Pos.exportPos a = checkDecl a := by
  cases a <;> simp [checksFor, checkDecl, rootPos, isMTop]

theorem checksFor_mTop (a : Ast) : checksFor Pos.mTop a = moduleItemCheck a := by
  cases a <;> simp [checksFor, checkDecl, moduleItemCheck, rootPos, isMTop]

theorem checksFor_innerPos (a : Ast) : checksFor Pos.innerPos a = [] := by
  cases a <;> simp [checksFor, rootPos, isMTop]

theorem checksFor_forHead (a : Ast) : checksFor Pos.forHead a = [] := by
  cases a <;> simp [checksFor, rootPos, isMTop]

theorem checksForL_sTop (l : AstL) : checksForL Pos.sTop l = checkStmts l := by
  cases l with
  | nil => rfl
  | cons a l =>
    have ih := checksForL_sTop l
    simp [checksForL, checkStmts, checksFor_sTop, ih]

theorem checksForL_fnRoot (l : AstL) : checksForL Pos.fnRoot l = checkStmts l := by
  cases l with
  | nil => rfl
  | cons a l =>
    have ih := checksForL_fnRoot l
    simp [checksForL, checkStmts, checksFor_fnRoot, ih]

theorem checksForL_mTop (l : AstL) : checksForL Pos.mTop l = moduleChecksL l := by
  cases l with
  | nil => rfl
  | cons a l =>
    have ih := checksForL_mTop l
    simp [checksForL, moduleChecksL, checksFor_mTop, ih]

theorem checksForL_innerPos (l : AstL) : checksForL Pos.innerPos l = [] := by
  cases l with
  | nil => rfl
  | cons a l =>
    have ih := checksForL_innerPos l
    simp [checksForL, checksFor_innerPos, ih]

/-- Permutation shuffle used to recombine handler and child contributions. -/
theorem perm_shuffle (A B C D : List Nat) :
    List.Perm ((A ++ B) ++ (C ++ D)) ((A ++ C) ++ (B ++ D)) := by
  have h : List.Perm (B ++ (C ++ D)) (C ++ (B ++ D)) := List.perm_append_comm_assoc B C D
  have h2 := h.append_left A
  simpa [List.append_assoc] using h2

/-! ### The context-threading scanner only appends -/

mutual
/-- The context-threading scanner extends the incoming context with exactly
the diagnostics of the pure scanner. -/
theorem scanCtx_eq_A (valid : List Nat) (b : Bool) (ctx : List Diag) (a : Ast) :
    scanCtxA valid b ctx a = ctx ++ scanA valid b a := by
  cases a with
  | module items =>
    simp only [scanCtxA, scanA]
    rw [scanCtx_eq_L valid b ctx items]
  | script stmts =>
    simp only [scanCtxA, scanA]
    rw [scanCtx_eq_L valid b ctx stmts]
  | exportDecl d =>
    simp only [scanCtxA, scanA]
    rw [scanCtx_eq_A valid b ctx d]
  | exportDefaultFn s body =>
    simp only [scanCtxA, scanA]
    rw [scanCtx_eq_L valid true ctx body]
  | moduleOther => simp [scanCtxA, scanA]
  | fnDecl s body =>
    have ih1 := scanCtx_eq_L valid true ctx body
    have ih2 := scanCtx_eq_L valid true (ctx ++ [mkDiag b s "function"]) body
    by_cases h : s ∈ valid <;>
      simp [scanCtxA, scanA, h, ih1, ih2, List.append_assoc]
  | varDecl k s inits =>
    have ih1 := scanCtx_eq_L valid b ctx inits
    have ih2 := scanCtx_eq_L valid b (ctx ++ [mkDiag b s "variable"]) inits
    by_cases h : k = VarKind.varKind ∧ ¬ s ∈ valid <;>
      simp [scanCtxA, scanA, h, ih1, ih2, List.append_assoc]
  | classDecl members =>
    simp only [scanCtxA, scanA]
    rw [scanCtx_eq_L valid b ctx members]
  | declOther => simp [scanCtxA, scanA]
  | block stmts =>
    simp only [scanCtxA, scanA]
    rw [scanCtx_eq_L valid b ctx stmts]
  | ifS c t e =>
    simp only [scanCtxA, scanA]
    rw [scanCtx_eq_A valid b (scanCtxA valid b (scanCtxA valid b ctx c) t) e,
      scanCtx_eq_A valid b (scanCtxA valid b ctx c) t, scanCtx_eq_A valid b ctx c]
    simp [List.append_assoc]
  | whileS c bd =>
    simp only [scanCtxA, scanA]
    rw [scanCtx_eq_A valid b (scanCtxA valid b ctx c) bd, scanCtx_eq_A valid b ctx c]
    simp [List.append_assoc]
  | doWhileS c bd =>
    simp only [scanCtxA, scanA]
    rw [scanCtx_eq_A valid b (scanCtxA valid b ctx c) bd, scanCtx_eq_A valid b ctx c]
    simp [List.append_assoc]
  | forS i t u bd =>
    simp only [scanCtxA, scanA]
    rw [scanCtx_eq_A valid b
        (scanCtxA valid b (scanCtxA valid b (scanCtxA valid b ctx i) t) u) bd,
      scanCtx_eq_A valid b (scanCtxA valid b (scanCtxA valid b ctx i) t) u,
      scanCtx_eq_A valid b (scanCtxA valid b ctx i) t, scanCtx_eq_A valid b ctx i]
    simp [List.append_assoc]
  | forInS l r bd =>
    simp only [scanCtxA, scanA]
    rw [scanCtx_eq_A valid b (scanCtxA valid b (scanCtxA valid b ctx l) r) bd,
      scanCtx_eq_A valid b (scanCtxA valid b ctx l) r, scanCtx_eq_A valid b ctx l]
    simp [List.append_assoc]
  | exprStmt e =>
    simp only [scanCtxA, scanA]
    rw [scanCtx_eq_A valid b ctx e]
  | emptyS => simp [scanCtxA, scanA]
  | fnExpr body =>
    simp only [scanCtxA, scanA]
    rw [scanCtx_eq_L valid true ctx body]
  | arrowBlock stmts =>
    simp only [scanCtxA, scanA]
    rw [scanCtx_eq_L valid true ctx stmts]
  | arrowExprBody e =>
    simp only [scanCtxA, scanA]
    rw [scanCtx_eq_A valid true ctx e]
  | classExpr members =>
    simp only [scanCtxA, scanA]
    rw [scanCtx_eq_L valid b ctx members]
  | objLit props =>
    simp only [scanCtxA, scanA]
    rw [scanCtx_eq_L valid b ctx props]
  | call f args =>
    simp only [scanCtxA, scanA]
    rw [scanCtx_eq_L valid b (scanCtxA valid b ctx f) args, scanCtx_eq_A valid b ctx f]
    simp [List.append_assoc]
  | exprOther => simp [scanCtxA, scanA]
  | ctorMember body =>
    simp only [scanCtxA, scanA]
    rw [scanCtx_eq_L valid b ctx body]
  | methodMember body =>
    simp only [scanCtxA, scanA]
    rw [scanCtx_eq_L valid true ctx body]
  | memberOther => simp [scanCtxA, scanA]

/-- List version of `scanCtx_eq_A`. -/
theorem scanCtx_eq_L (valid : List Nat) (b : Bool) (ctx : List Diag) (l : AstL) :
    scanCtxL valid b ctx l = ctx ++ scanL valid b l := by
  cases l with
  | nil => simp [scanCtxL, scanL]
  | cons a l =>
    simp only [scanCtxL, scanL]
    rw [scanCtx_eq_L valid b (scanCtxA valid b ctx a) l, scanCtx_eq_A valid b ctx a]
    simp [List.append_assoc]
end

/-! ### The scanner as a filter of the inventory -/

mutual
/-- The scanner's output is obtained from the inventory by keeping, in
traversal order, the diagnostic that `emit` assigns to each entry.  The
position argument `p` of the inventory is irrelevant to the scanner. -/
theorem scan_eq_A (valid : List Nat) (b : Bool) (p : Pos) (a : Ast) :
    scanA valid b a = (invA b p a).filterMap (emit valid) := by
  cases a with
  | module items =>
    simp only [scanA, invA]
    exact scan_eq_L valid b Pos.mTop items
  | script stmts =>
    simp only [scanA, invA]
    exact scan_eq_L valid b Pos.sTop stmts
  | exportDecl d =>
    simp only [scanA, invA]
    exact scan_eq_A valid b (if p = Pos.mTop then Pos.exportPos else Pos.innerPos) d
  | exportDefaultFn s body =>
    have ih := scan_eq_L valid true Pos.fnRoot body
    simp [scanA, invA, List.filterMap_cons, emit, ih]
  | moduleOther => simp [scanA, invA]
  | fnDecl s body =>
    have ih := scan_eq_L valid true Pos.fnRoot body
    by_cases h : s ∈ valid <;>
      simp [scanA, invA, List.filterMap_cons, emit, h, ih]
  | varDecl k s inits =>
    have ih := scan_eq_L valid b Pos.innerPos inits
    by_cases h : k = VarKind.varKind ∧ ¬ s ∈ valid <;>
      simp [scanA, invA, List.filterMap_cons, emit, h, ih]
  | classDecl members =>
    simp only [scanA, invA]
    exact scan_eq_L valid b Pos.innerPos members
  | declOther => simp [scanA, invA]
  | block stmts =>
    simp only [scanA, invA]
    exact scan_eq_L valid b Pos.innerPos stmts
  | ifS c t e =>
    have h1 := scan_eq_A valid b Pos.innerPos c
    have h2 := scan_eq_A valid b Pos.innerPos t
    have h3 := scan_eq_A valid b Pos.innerPos e
    simp [scanA, invA, List.filterMap_append, h1, h2, h3]
  | whileS c bd =>
    have h1 := scan_eq_A valid b Pos.innerPos c
    have h2 := scan_eq_A valid b Pos.innerPos bd
    simp [scanA, invA, List.filterMap_append, h1, h2]
  | doWhileS c bd =>
    have h1 := scan_eq_A valid b Pos.innerPos c
    have h2 := scan_eq_A valid b Pos.innerPos bd
    simp [scanA, invA, List.filterMap_append, h1, h2]
  | forS i t u bd =>
    have h1 := scan_eq_A valid b Pos.forHead i
    have h2 := scan_eq_A valid b Pos.innerPos t
    have h3 := scan_eq_A valid b Pos.innerPos u
    have h4 := scan_eq_A valid b Pos.innerPos bd
    simp [scanA, invA, List.filterMap_append, h1, h2, h3, h4]
  | forInS l r bd =>
    have h1 := scan_eq_A valid b Pos.forHead l
    have h2 := scan_eq_A valid b Pos.innerPos r
    have h3 := scan_eq_A valid b Pos.innerPos bd
    simp [scanA, invA, List.filterMap_append, h1, h2, h3]
  | exprStmt e =>
    simp only [scanA, invA]
    exact scan_eq_A valid b Pos.innerPos e
  | emptyS => simp [scanA, invA]
  | fnExpr body =>
    simp only [scanA, invA]
    exact scan_eq_L valid true Pos.fnRoot body
  | arrowBlock stmts =>
    simp only [scanA, invA]
    exact scan_eq_L valid true Pos.fnRoot stmts
  | arrowExprBody e =>
    simp only [scanA, invA]
    exact scan_eq_A valid true Pos.innerPos e
  | classExpr members =>
    simp only [scanA, invA]
    exact scan_eq_L valid b Pos.innerPos members
  | objLit props =>
    simp only [scanA, invA]
    exact scan_eq_L valid b Pos.innerPos props
  | call f args =>
    have h1 := scan_eq_A valid b Pos.innerPos f
    have h2 := scan_eq_L valid b Pos.innerPos args
    simp [scanA, invA, List.filterMap_append, h1, h2]
  | exprOther => simp [scanA, invA]
  | ctorMember body =>
    simp only [scanA, invA]
    exact scan_eq_L valid b Pos.fnRoot body
  | methodMember body =>
    simp only [scanA, invA]
    exact scan_eq_L valid true Pos.fnRoot body
  | memberOther => simp [scanA, invA]

/-- List version of `scan_eq_A`. -/
theorem scan_eq_L (valid : List Nat) (b : Bool) (p : Pos) (l : AstL) :
    scanL valid b l = (invL b p l).filterMap (emit valid) := by
  cases l with
  | nil => simp [scanL, invL]
  | cons a l =>
    have h1 := scan_eq_A valid b p a
    have h2 := scan_eq_L valid b p l
    simp [scanL, invL, List.filterMap_append, h1, h2]
end

/-! ### The collector as a filter of the inventory -/

mutual
/-- The spans that the collector inserts while visiting a node are, up to
order, the spans of the good inventory entries of that node: the handler
contribution for the node's own position plus the contributions of its
subtree. -/
theorem inv_perm_A (b : Bool) (p : Pos) (a : Ast) :
    List.Perm (((invA b p a).filter goodEntry).map Entry.span)
      (checksFor p a ++ collectA a) := by
  cases a with
  | module items =>
    have h := inv_perm_L b Pos.mTop items
    rw [checksForL_mTop] at h
    have hc : checksFor p (Ast.module items) = [] := by simp [checksFor]
    simpa [invA, collectA, hc] using h
  | script stmts =>
    have h := inv_perm_L b Pos.sTop stmts
    rw [checksForL_sTop] at h
    have hc : checksFor p (Ast.script stmts) = [] := by simp [checksFor]
    simpa [invA, collectA, hc] using h
  | exportDecl d =>
    by_cases hp : p = Pos.mTop
    · subst hp
      have h := inv_perm_A b Pos.exportPos d
      rw [checksFor_exportPos] at h
      simpa [invA, collectA, checksFor, isMTop] using h
    · have h := inv_perm_A b Pos.innerPos d
      rw [checksFor_innerPos] at h
      simp only [List.nil_append] at h
      have hm : ¬ isMTop p = true := by simpa [isMTop_iff] using hp
      simpa [invA, collectA, checksFor, hp, hm] using h
  | exportDefaultFn s body =>
    have h := inv_perm_L true Pos.fnRoot body
    rw [checksForL_fnRoot] at h
    by_cases hm : isMTop p = true <;>
      simp [invA, collectA, checksFor, List.filter_cons, goodEntry, hm] <;>
      first
      | exact h
      | exact h.cons s
  | moduleOther => simp [invA, collectA, checksFor]
  | fnDecl s body =>
    have h := inv_perm_L true Pos.fnRoot body
    rw [checksForL_fnRoot] at h
    by_cases hr : rootPos p = true <;>
      simp [invA, collectA, checksFor, List.filter_cons, goodEntry, hr] <;>
      first
      | exact h
      | exact h.cons s
  | varDecl k s inits =>
    have h := inv_perm_L b Pos.innerPos inits
    rw [checksForL_innerPos] at h
    simp only [List.nil_append] at h
    cases k <;> by_cases hr : rootPos p = true <;>
      simp [invA, collectA, checksFor, List.filter_cons, goodEntry, isVarKind, hr] <;>
      first
      | exact h
      | exact h.cons s
  | classDecl members =>
    have h := inv_perm_L b Pos.innerPos members
    rw [checksForL_innerPos] at h
    simp only [List.nil_append] at h
    have hc : checksFor p (Ast.classDecl members) = [] := by simp [checksFor]
    simpa [invA, collectA, hc] using h
  | declOther => simp [invA, collectA, checksFor]
  | block stmts =>
    have h := inv_perm_L b Pos.innerPos stmts
    rw [checksForL_innerPos] at h
    simp only [List.nil_append] at h
    have hc : checksFor p (Ast.block stmts) = [] := by simp [checksFor]
    simpa [invA, collectA, hc] using h
  | ifS c t e =>
    have h1 := inv_perm_A b Pos.innerPos c
    have h2 := inv_perm_A b Pos.innerPos t
    have h3 := inv_perm_A b Pos.innerPos e
    rw [checksFor_innerPos] at h1 h2 h3
    simp only [List.nil_append] at h1 h2 h3
    have hc : checksFor p (Ast.ifS c t e) = [] := by simp [checksFor]
    simp only [invA, collectA, List.filter_append, List.map_append, hc,
      List.nil_append]
    simpa [List.append_assoc] using h1.append (h2.append h3)
  | whileS c bd =>
    have h1 := inv_perm_A b Pos.innerPos c
    have h2 := inv_perm_A b Pos.innerPos bd
    rw [checksFor_innerPos] at h1 h2
    simp only [List.nil_append] at h1 h2
    have hc : checksFor p (Ast.whileS c bd) = [] := by simp [checksFor]
    simp only [invA, collectA, List.filter_append, List.map_append, hc,
      List.nil_append]
    exact h1.append h2
  | doWhileS c bd =>
    have h1 := inv_perm_A b Pos.innerPos c
    have h2 := inv_perm_A b Pos.innerPos bd
    rw [checksFor_innerPos] at h1 h2
    simp only [List.nil_append] at h1 h2
    have hc : checksFor p (Ast.doWhileS c bd) = [] := by simp [checksFor]
    simp only [invA, collectA, List.filter_append, List.map_append, hc,
      List.nil_append]
    exact h1.append h2
  | forS i t u bd =>
    have h1 := inv_perm_A b Pos.forHead i
    have h2 := inv_perm_A b Pos.innerPos t
    have h3 := inv_perm_A b Pos.innerPos u
    have h4 := inv_perm_A b Pos.innerPos bd
    rw [checksFor_forHead] at h1
    rw [checksFor_innerPos] at h2 h3 h4
    simp only [List.nil_append] at h1 h2 h3 h4
    have hc : checksFor p (Ast.forS i t u bd) = [] := by simp [checksFor]
    simp only [invA, collectA, List.filter_append, List.map_append, hc,
      List.nil_append]
    simpa [List.append_assoc] using h1.append (h2.append (h3.append h4))
  | forInS l r bd =>
    have h1 := inv_perm_A b Pos.forHead l
    have h2 := inv_perm_A b Pos.innerPos r
    have h3 := inv_perm_A b Pos.innerPos bd
    rw [checksFor_forHead] at h1
    rw [checksFor_innerPos] at h2 h3
    simp only [List.nil_append] at h1 h2 h3
    have hc : checksFor p (Ast.forInS l r bd) = [] := by simp [checksFor]
    simp only [invA, collectA, List.filter_append, List.map_append, hc,
      List.nil_append]
    simpa [List.append_assoc] using h1.append (h2.append h3)
  | exprStmt e =>
    have h := inv_perm_A b Pos.innerPos e
    rw [checksFor_innerPos] at h
    simp only [List.nil_append] at h
    have hc : checksFor p (Ast.exprStmt e) = [] := by simp [checksFor]
    simpa [invA, collectA, hc] using h
  | emptyS => simp [invA, collectA, checksFor]
  | fnExpr body =>
    have h := inv_perm_L true Pos.fnRoot body
    rw [checksForL_fnRoot] at h
    have hc : checksFor p (Ast.fnExpr body) = [] := by simp [checksFor]
    simpa [invA, collectA, hc] using h
  | arrowBlock stmts =>
    have h := inv_perm_L true Pos.fnRoot stmts
    rw [checksForL_fnRoot] at h
    have hc : checksFor p (Ast.arrowBlock stmts) = [] := by simp [checksFor]
    simpa [invA, collectA, hc] using h
  | arrowExprBody e =>
    have h := inv_perm_A true Pos.innerPos e
    rw [checksFor_innerPos] at h
    simp only [List.nil_append] at h
    have hc : checksFor p (Ast.arrowExprBody e) = [] := by simp [checksFor]
    simpa [invA, collectA, hc] using h
  | classExpr members =>
    have h := inv_perm_L b Pos.innerPos members
    rw [checksForL_innerPos] at h
    simp only [List.nil_append] at h
    have hc : checksFor p (Ast.classExpr members) = [] := by simp [checksFor]
    simpa [invA, collectA, hc] using h
  | objLit props =>
    have h := inv_perm_L b Pos.innerPos props
    rw [checksForL_innerPos] at h
    simp only [List.nil_append] at h
    have hc : checksFor p (Ast.objLit props) = [] := by simp [checksFor]
    simpa [invA, collectA, hc] using h
  | call f args =>
    have h1 := inv_perm_A b Pos.innerPos f
    have h2 := inv_perm_L b Pos.innerPos args
    rw [checksFor_innerPos] at h1
    rw [checksForL_innerPos] at h2
    simp only [List.nil_append] at h1 h2
    have hc : checksFor p (Ast.call f args) = [] := by simp [checksFor]
    simp only [invA, collectA, List.filter_append, List.map_append, hc,
      List.nil_append]
    exact h1.append h2
  | exprOther => simp [invA, collectA, checksFor]
  | ctorMember body =>
    have h := inv_perm_L b Pos.fnRoot body
    rw [checksForL_fnRoot] at h
    have hc : checksFor p (Ast.ctorMember body) = [] := by simp [checksFor]
    simpa [invA, collectA, hc] using h
  | methodMember body =>
    have h := inv_perm_L true Pos.fnRoot body
    rw [checksForL_fnRoot] at h
    have hc : checksFor p (Ast.methodMember body) = [] := by simp [checksFor]
    simpa [invA, collectA, hc] using h
  | memberOther => simp [invA, collectA, checksFor]

/-- List version of `inv_perm_A`. -/
theorem inv_perm_L (b : Bool) (p : Pos) (l : AstL) :
    List.Perm (((invL b p l).filter goodEntry).map Entry.span)
      (checksForL p l ++ collectL l) := by
  cases l with
  | nil => simp [invL, checksForL, collectL]
  | cons a l =>
    have h1 := inv_perm_A b p a
    have h2 := inv_perm_L b p l
    simp only [invL, checksForL, collectL, List.filter_append, List.map_append]
    exact (h1.append h2).trans (perm_shuffle _ _ _ _)
end

/-- Membership in the collected valid set is equivalent to the existence of a
good inventory entry with that span: a span is valid exactly when some
declaration node carrying it sits at a root position (or is a
default-exported function at the module top). -/
theorem collect_mem_iff (a : Ast) (s : Nat) :
    s ∈ collectA a ↔ ∃ e ∈ lintInv a, e.span = s ∧ goodEntry e = true := by
  have h := inv_perm_A false Pos.innerPos a
  rw [checksFor_innerPos, List.nil_append] at h
  rw [← h.mem_iff]
  simp only [lintInv, List.mem_map, List.mem_filter]
  constructor
  · rintro ⟨e, ⟨he, hg⟩, hs⟩
    exact ⟨e, he, hs, hg⟩
  · rintro ⟨e, he, hs, hg⟩
    exact ⟨e, ⟨he, hg⟩, hs⟩

/-! ### Order-independence of the collector -/

theorem checkStmtsRev_mem (l : AstL) (s : Nat) :
    s ∈ checkStmtsRev l ↔ s ∈ checkStmts l := by
  cases l with
  | nil => simp [checkStmtsRev, checkStmts]
  | cons a l =>
    have ih := checkStmtsRev_mem l s
    simp only [checkStmtsRev, checkStmts, List.mem_append, ih]
    tauto

theorem moduleChecksRevL_mem (l : AstL) (s : Nat) :
    s ∈ moduleChecksRevL l ↔ s ∈ moduleChecksL l := by
  cases l with
  | nil => simp [moduleChecksRevL, moduleChecksL]
  | cons a l =>
    have ih := moduleChecksRevL_mem l s
    simp only [moduleChecksRevL, moduleChecksL, List.mem_append, ih]
    tauto

mutual
/-- The reversed-order collector records the same set of spans. -/
theorem collectRev_mem_A (a : Ast) (s : Nat) :
    s ∈ collectRevA a ↔ s ∈ collectA a := by
  cases a with
  | module items =>
    have h1 := collectRev_mem_L items s
    have h2 := moduleChecksRevL_mem items s
    simp only [collectRevA, collectA, List.mem_append, h1, h2]
    tauto
  | script stmts =>
    have h1 := collectRev_mem_L stmts s
    have h2 := checkStmtsRev_mem stmts s
    simp only [collectRevA, collectA, List.mem_append, h1, h2]
    tauto
  | exportDecl d => exact collectRev_mem_A d s
  | exportDefaultFn t body =>
    have h1 := collectRev_mem_L body s
    have h2 := checkStmtsRev_mem body s
    simp only [collectRevA, collectA, List.mem_append, h1, h2]
    tauto
  | moduleOther => simp [collectRevA, collectA]
  | fnDecl t body =>
    have h1 := collectRev_mem_L body s
    have h2 := checkStmtsRev_mem body s
    simp only [collectRevA, collectA, List.mem_append, h1, h2]
    tauto
  | varDecl k t inits =>
    have h := collectRev_mem_L inits s
    simpa [collectRevA, collectA] using h
  | classDecl members =>
    have h := collectRev_mem_L members s
    simpa [collectRevA, collectA] using h
  | declOther => simp [collectRevA, collectA]
  | block stmts =>
    have h := collectRev_mem_L stmts s
    simpa [collectRevA, collectA] using h
  | ifS c t e =>
    have h1 := collectRev_mem_A c s
    have h2 := collectRev_mem_A t s
    have h3 := collectRev_mem_A e s
    simp only [collectRevA, collectA, List.mem_append, h1, h2, h3]
    tauto
  | whileS c bd =>
    have h1 := collectRev_mem_A c s
    have h2 := collectRev_mem_A bd s
    simp only [collectRevA, collectA, List.mem_append, h1, h2]
    tauto
  | doWhileS c bd =>
    have h1 := collectRev_mem_A c s
    have h2 := collectRev_mem_A bd s
    simp only [collectRevA, collectA, List.mem_append, h1, h2]
    tauto
  | forS i t u bd =>
    have h1 := collectRev_mem_A i s
    have h2 := collectRev_mem_A t s
    have h3 := collectRev_mem_A u s
    have h4 := collectRev_mem_A bd s
    simp only [collectRevA, collectA, List.mem_append, h1, h2, h3, h4]
    tauto
  | forInS l r bd =>
    have h1 := collectRev_mem_A l s
    have h2 := collectRev_mem_A r s
    have h3 := collectRev_mem_A bd s
    simp only [collectRevA, collectA, List.mem_append, h1, h2, h3]
    tauto
  | exprStmt e => exact collectRev_mem_A e s
  | emptyS => simp [collectRevA, collectA]
  | fnExpr body =>
    have h1 := collectRev_mem_L body s
    have h2 := checkStmtsRev_mem body s
    simp only [collectRevA, collectA, List.mem_append, h1, h2]
    tauto
  | arrowBlock stmts =>
    have h1 := collectRev_mem_L stmts s
    have h2 := checkStmtsRev_mem stmts s
    simp only [collectRevA, collectA, List.mem_append, h1, h2]
    tauto
  | arrowExprBody e => exact collectRev_mem_A e s
  | classExpr members =>
    have h := collectRev_mem_L members s
    simpa [collectRevA, collectA] using h
  | objLit props =>
    have h := collectRev_mem_L props s
    simpa [collectRevA, collectA] using h
  | call f args =>
    have h1 := collectRev_mem_A f s
    have h2 := collectRev_mem_L args s
    simp only [collectRevA, collectA, List.mem_append, h1, h2]
    tauto
  | exprOther => simp [collectRevA, collectA]
  | ctorMember body =>
    have h1 := collectRev_mem_L body s
    have h2 := checkStmtsRev_mem body s
    simp only [collectRevA, collectA, List.mem_append, h1, h2]
    tauto
  | methodMember body =>
    have h1 := collectRev_mem_L body s
    have h2 := checkStmtsRev_mem body s
    simp only [collectRevA, collectA, List.mem_append, h1, h2]
    tauto
  | memberOther => simp [collectRevA, collectA]

/-- List version of `collectRev_mem_A`. -/
theorem collectRev_mem_L (l : AstL) (s : Nat) :
    s ∈ collectRevL l ↔ s ∈ collectL l := by
  cases l with
  | nil => simp [collectRevL, collectL]
  | cons a l =>
    have h1 := collectRev_mem_A a s
    have h2 := collectRev_mem_L l s
    simp only [collectRevL, collectL, List.mem_append, h1, h2]
    tauto
end

/-! ### Shape of an emitted diagnostic -/

/-- Characterisation of `emit` producing a diagnostic. -/
theorem emit_some_iff (valid : List Nat) (e : Entry) (d : Diag) :
    emit valid e = some d ↔
      (qualTag e.tag = true ∧ ¬ e.span ∈ valid)
        ∧ d = mkDiag e.inFn e.span (kindStr e.tag) := by
  obtain ⟨s, tag, p, b⟩ := e
  cases tag with
  | fnTag =>
    by_cases h : s ∈ valid <;> simp [emit, qualTag, kindStr, h, eq_comm]
  | varTag k =>
    by_cases hk : k = VarKind.varKind <;> by_cases h : s ∈ valid <;>
      simp [emit, qualTag, kindStr, isVarKind_iff, hk, h, eq_comm]
  | defaultFnTag => simp [emit, qualTag]

/-- Every emitted diagnostic is the `add_diagnostic` record of a qualifying
inventory entry whose span is absent from the valid set. -/
theorem diag_shape (p : Ast) (d : Diag) (hd : d ∈ lintDiags p) :
    ∃ e ∈ lintInv p,
      qualTag e.tag = true ∧ ¬ e.span ∈ collectA p
        ∧ d = mkDiag e.inFn e.span (kindStr e.tag) := by
  have h := scan_eq_A (collectA p) false Pos.innerPos p
  unfold lintDiags at hd
  rw [h, List.mem_filterMap] at hd
  obtain ⟨e, he, hemit⟩ := hd
  rw [emit_some_iff] at hemit
  exact ⟨e, he, hemit.1.1, hemit.1.2, hemit.2⟩

/-- Under well-formed spans, two inventory entries with the same span are the
same entry. -/
theorem entry_unique (p : Ast) (hwf : WfSpans p) (e1 e2 : Entry)
    (h1 : e1 ∈ lintInv p) (h2 : e2 ∈ lintInv p) (hs : e1.span = e2.span) :
    e1 = e2 :=
  List.inj_on_of_nodup_map hwf h1 h2 hs

/-! ### Concrete example trees

The sources are written next to the trees; spans are the column offsets of
the corresponding declaration nodes. -/

/-- Tree of `"class T { constructor() { if (x) { function f(){} } } }"`: a
function declaration nested in a block inside a constructor body. -/
def ctorNested : Ast :=
  .script (astl [.classDecl (astl [.ctorMember
    (astl [.ifS .exprOther (.block (astl [.fnDecl 40 .nil])) .emptyS])])])

/-- Tree of `"if (foo) var a;"`. -/
def varInIf : Ast :=
  .script (astl [.ifS .exprOther (.varDecl .varKind 9 (astl [.exprOther])) .emptyS])

/-- Tree of `"if (foo){ function f(){ if(bar){ var a; } } }"`: two
violations, at spans 10 and 33. -/
def twoViol : Ast :=
  .script (astl [.ifS .exprOther
    (.block (astl [.fnDecl 10
      (astl [.ifS .exprOther
        (.block (astl [.varDecl .varKind 33 (astl [.exprOther])])) .emptyS])]))
    .emptyS])

/-- Tree of `"(function() { if (x) function g(){} })(); if (y) { function h(){} }"`:
an invalid declaration inside a function literal (span 11), followed, after
the traversal has left the literal, by an invalid declaration directly under
the script body (span 22). -/
def nestedFns : Ast :=
  .script (astl [
    .exprStmt (.call (.fnExpr (astl [.ifS .exprOther (.fnDecl 11 .nil) .emptyS])) .nil),
    .ifS .exprOther (.block (astl [.fnDecl 22 .nil])) .emptyS])

/-- Tree of `"let a = 0; function f() {} if (x) var b;"`: top-level
declarations at spans 5 and 7, one violation at span 20. -/
def topEx : Ast :=
  .script (astl [.varDecl .letKind 5 (astl [.exprOther]), .fnDecl 7 .nil,
    .ifS .exprOther (.varDecl .varKind 20 (astl [.exprOther])) .emptyS])

/-- Tree of `"if (x) { let y = 1; } if (z) var w;"`: a `let` declaration
inside a block (span 12) and a `var` violation (span 30). -/
def letEx : Ast :=
  .script (astl [.ifS .exprOther
      (.block (astl [.varDecl .letKind 12 (astl [.exprOther])])) .emptyS,
    .ifS .exprOther (.varDecl .varKind 30 (astl [.exprOther])) .emptyS])

/-- Tree of `"for (var a;;);"`: a `var` declaration in a loop head, with the
loop itself directly at the script root. -/
def forEx : Ast :=
  .script (astl [.forS (.varDecl .varKind 5 (astl [.exprOther]))
    .exprOther .exprOther .emptyS])

/-- Tree of `"let a = 0;"`: no function or `var` declaration at all. -/
def onlyLet : Ast :=
  .script (astl [.varDecl .letKind 4 (astl [.exprOther])])

/-! ### The claims -/

/-- C1: for every tree, the scanner emits a violation exactly for the
function-declaration nodes and `var`-kind variable-declaration nodes whose
span is absent from the valid set; the diagnostic carries the kind word
(`"function"` or `"variable"`), the root `"function"` when the `in_function`
flag at the node is set and `"module"` otherwise, and the node's own span;
and the scanner visits the children of every declaration regardless (the
inventory `lintInv` lists every declaration node, including those nested
inside flagged ones, so nested invalid declarations are independently
present in the output). -/
theorem C1_scanner_flags_exactly_invalid_decls (p : Ast) :
    lintDiags p = (lintInv p).filterMap (emit (collectA p))
    ∧ ∀ d : Diag, d ∈ lintDiags p ↔
        ∃ e ∈ lintInv p,
          (qualTag e.tag = true ∧ ¬ e.span ∈ collectA p)
            ∧ d = mkDiag e.inFn e.span (kindStr e.tag) := by
  have h := scan_eq_A (collectA p) false Pos.innerPos p
  refine ⟨h, fun d => ?_⟩
  unfold lintDiags
  rw [h, List.mem_filterMap]
  simp only [emit_some_iff]
  exact Iff.rfl

/-- C2 counterexample: in
`"class T { constructor() { if (x) { function f(){} } } }"` the function
declaration nested in a block inside the constructor body is reported with
root `"module"`, not `"function"` as the claim states: the scanner does not
override `visit_constructor`, so `in_function` stays `false` inside a
constructor body. -/
theorem C2_counterexample :
    (¬ ∃ d ∈ lintDiags ctorNested,
        d.message = "Move function declaration to function root")
    ∧ ∃ d ∈ lintDiags ctorNested,
        d.message = "Move function declaration to module root" := by
  decide

/-- C2 (amended): when the scanner enters a function or an arrow function
(block-bodied or not), it traverses the children with `in_function` set to
`true` and the surrounding traversal keeps the old value; a constructor,
however, is not entered specially: its body is traversed with `in_function`
unchanged, so a declaration nested in a block inside a constructor body of a
top-level class is reported with root `"module"`. -/
theorem C2_scanner_flag_equations :
    (∀ (valid : List Nat) (b : Bool) (s : Nat) (body : AstL),
        scanA valid b (Ast.fnDecl s body) =
          (if s ∈ valid then [] else [mkDiag b s "function"])
            ++ scanL valid true body)
    ∧ (∀ (valid : List Nat) (b : Bool) (body : AstL),
        scanA valid b (Ast.fnExpr body) = scanL valid true body)
    ∧ (∀ (valid : List Nat) (b : Bool) (stmts : AstL),
        scanA valid b (Ast.arrowBlock stmts) = scanL valid true stmts)
    ∧ (∀ (valid : List Nat) (b : Bool) (e : Ast),
        scanA valid b (Ast.arrowExprBody e) = scanA valid true e)
    ∧ (∀ (valid : List Nat) (b : Bool) (body : AstL),
        scanA valid b (Ast.ctorMember body) = scanL valid b body)
    ∧ (∀ (valid : List Nat) (b : Bool) (a : Ast) (l : AstL),
        scanL valid b (AstL.cons a l) = scanA valid b a ++ scanL valid b l)
    ∧ lintDiags ctorNested = [mkDiag false 40 "function"] := by
  refine ⟨fun valid b s body => by simp [scanA], fun valid b body => by simp [scanA],
    fun valid b stmts => by simp [scanA], fun valid b e => by simp [scanA],
    fun valid b body => by simp [scanA], fun valid b a l => by simp [scanL], by decide⟩

/-- C3: under well-formed spans, a declaration of any kind sitting directly
in the module/script root list (plain, export-wrapped, or a default-exported
function) is never the subject of a diagnostic. -/
theorem C3_top_level_decls_never_flagged (p : Ast) (s : Nat)
    (hwf : WfSpans p) (hs : s ∈ topDeclSpans p) :
    ∀ d ∈ lintDiags p, d.span ≠ s := by
  simp only [topDeclSpans, List.mem_map, List.mem_filter, Bool.or_eq_true,
    decide_eq_true_eq] at hs
  obtain ⟨e', ⟨he', hpos⟩, hs'⟩ := hs
  intro d hd heq
  obtain ⟨e, he, hq, hnv, hdeq⟩ := diag_shape p d hd
  have hspan : e.span = s := by
    rw [hdeq] at heq
    simpa [mkDiag] using heq
  have hee : e = e' := entry_unique p hwf e e' he he' (by rw [hspan, hs'])
  have hpos2 : (e.pos = Pos.mTop ∨ e.pos = Pos.sTop) ∨ e.pos = Pos.exportPos := by
    rw [hee]
    exact hpos
  have hroot : rootPos e.pos = true := by
    rcases hpos2 with (h | h) | h <;> simp [h, rootPos]
  have hg : goodEntry e = true := by
    cases htag : e.tag with
    | fnTag => simp [goodEntry, htag, hroot]
    | varTag k =>
      have hk : k = VarKind.varKind := by
        rw [htag] at hq
        simpa [qualTag, isVarKind_iff] using hq
      subst hk
      simp [goodEntry, htag, hroot, isVarKind]
    | defaultFnTag =>
      rw [htag] at hq
      simp [qualTag] at hq
  have hmem : s ∈ collectA p := (collect_mem_iff p s).2 ⟨e, he, hspan, hg⟩
  exact hnv (by rwa [hspan])

/-- C3 witness: in `topEx`, the spans are unique, span 7 is a top-level
function declaration, and no diagnostic of the run carries span 7. -/
theorem C3_witness :
    WfSpans topEx ∧ 7 ∈ topDeclSpans topEx
      ∧ ∀ d ∈ lintDiags topEx, d.span ≠ 7 :=
  ⟨by decide, by decide, C3_top_level_decls_never_flagged topEx 7 (by decide) (by decide)⟩

/-- C4: under well-formed spans, a `let`/`const` variable declaration,
anywhere in the tree, is never the subject of a diagnostic. -/
theorem C4_let_const_never_flagged (p : Ast) (s : Nat)
    (hwf : WfSpans p) (hs : s ∈ letConstSpans p) :
    ∀ d ∈ lintDiags p, d.span ≠ s := by
  simp only [letConstSpans, List.mem_map, List.mem_filter, Bool.or_eq_true,
    decide_eq_true_eq] at hs
  obtain ⟨e', ⟨he', htag'⟩, hs'⟩ := hs
  intro d hd heq
  obtain ⟨e, he, hq, hnv, hdeq⟩ := diag_shape p d hd
  have hspan : e.span = s := by
    rw [hdeq] at heq
    simpa [mkDiag] using heq
  have hee : e = e' := entry_unique p hwf e e' he he' (by rw [hspan, hs'])
  subst hee
  rcases htag' with h | h <;> rw [h] at hq <;> simp [qualTag, isVarKind] at hq

/-- C4 witness: in `letEx`, the spans are unique, span 12 is a `let`
declaration inside a block, and no diagnostic of the run carries span 12. -/
theorem C4_witness :
    WfSpans letEx ∧ 12 ∈ letConstSpans letEx
      ∧ ∀ d ∈ lintDiags letEx, d.span ≠ 12 :=
  ⟨by decide, by decide, C4_let_const_never_flagged letEx 12 (by decide) (by decide)⟩

/-- C5: the `in_function` context is purely local to each function literal's
subtree: the scan of a list restores the surrounding flag for the elements
after a function literal, and entering a function expression or block-bodied
arrow sets it for the children only.  Concretely, in `nestedFns` the invalid
declaration inside the function literal is reported with root `"function"`
and the invalid declaration encountered after returning from that literal is
reported with root `"module"`. -/
theorem C5_in_function_restored_on_exit :
    (∀ (valid : List Nat) (b : Bool) (a : Ast) (l : AstL),
        scanL valid b (AstL.cons a l) = scanA valid b a ++ scanL valid b l)
    ∧ (∀ (valid : List Nat) (b : Bool) (body : AstL),
        scanA valid b (Ast.fnExpr body) = scanL valid true body)
    ∧ (∀ (valid : List Nat) (b : Bool) (stmts : AstL),
        scanA valid b (Ast.arrowBlock stmts) = scanL valid true stmts)
    ∧ lintDiags nestedFns =
        [mkDiag true 11 "function", mkDiag false 22 "function"] := by
  refine ⟨fun valid b a l => by simp [scanL], fun valid b body => by simp [scanA],
    fun valid b stmts => by simp [scanA], by decide⟩

/-- C6 counterexample: in `"if (foo) var a;"` a diagnostic is produced, and
its hint is `"Move the declaration up into the correct scope"` with no
trailing period, so the claimed hint string (with a trailing period) is not
the one emitted. -/
theorem C6_counterexample :
    ¬ ∀ d ∈ lintDiags varInIf,
        d.hint = "Move the declaration up into the correct scope." := by
  decide

/-- C6 (amended): every diagnostic carries the violation's span, the rule
code `"no-inner-declarations"`, the message
`"Move {kind} declaration to {root} root"` with kind in
`{"function", "variable"}` and root in `{"function", "module"}`, and the
hint `"Move the declaration up into the correct scope"` (without a trailing
period); diagnostics are submitted in encounter order, and the two-violation
tree `twoViol` yields a two-element list ordered by position. -/
theorem C6_diagnostic_format (p : Ast) :
    (∀ d ∈ lintDiags p,
        d.code = "no-inner-declarations"
        ∧ d.hint = "Move the declaration up into the correct scope"
        ∧ ∃ k r : String, (k = "function" ∨ k = "variable")
            ∧ (r = "function" ∨ r = "module")
            ∧ d.message = "Move " ++ k ++ " declaration to " ++ r ++ " root")
    ∧ lintDiags twoViol = [mkDiag false 10 "function", mkDiag true 33 "variable"]
    ∧ (lintDiags twoViol).map Diag.span = [10, 33] := by
  refine ⟨fun d hd => ?_, by decide, by decide⟩
  obtain ⟨e, he, hq, hnv, hdeq⟩ := diag_shape p d hd
  subst hdeq
  refine ⟨rfl, rfl, kindStr e.tag, if e.inFn then "function" else "module",
    ?_, ?_, rfl⟩
  · cases htag : e.tag with
    | fnTag => exact Or.inl rfl
    | varTag k => exact Or.inr rfl
    | defaultFnTag =>
      rw [htag] at hq
      simp [qualTag] at hq
  · cases e.inFn <;> simp

/-- C6 witness: the first diagnostic of `twoViol` carries the fixed code and
the fixed (period-free) hint. -/
theorem C6_diagnostic_format_witness :
    (mkDiag false 10 "function").code = "no-inner-declarations"
    ∧ (mkDiag false 10 "function").hint =
        "Move the declaration up into the correct scope" := by
  have h := (C6_diagnostic_format twoViol).1 (mkDiag false 10 "function") (by decide)
  exact ⟨h.1, h.2.1⟩

/-- C7: the valid set is traversal-order independent: the collector run with
every list reversed (and every handler applied after the children) records
exactly the same spans, and membership is characterised purely structurally
by the existence of an inventory entry at a root position (function bodies
at any nesting depth carry the `fnRoot` position, so their root declarations
are recorded no matter how deeply the function itself is nested). -/
theorem C7_collector_order_independent (p : Ast) (s : Nat) :
    (s ∈ collectRevA p ↔ s ∈ collectA p)
    ∧ (s ∈ collectA p ↔ ∃ e ∈ lintInv p, e.span = s ∧ goodEntry e = true) :=
  ⟨collectRev_mem_A p s, collect_mem_iff p s⟩

/-- C8: `lint_program` only appends to the diagnostic context the
diagnostics determined by the tree, so running the check twice on the same
unmodified tree adds two identical diagnostic lists: the computation is
deterministic per tree and no state is carried across runs. -/
theorem C8_two_runs_identical (ctx : List Diag) (p : Ast) :
    lintProgram ctx p = ctx ++ lintDiags p
    ∧ lintProgram (lintProgram ctx p) p = ctx ++ lintDiags p ++ lintDiags p := by
  have h1 := scanCtx_eq_A (collectA p) false ctx p
  have h2 := scanCtx_eq_A (collectA p) false (ctx ++ scanA (collectA p) false p) p
  constructor
  · exact h1
  · show scanCtxA (collectA p) false (scanCtxA (collectA p) false ctx p) p = _
    rw [h1, h2]
    simp [lintDiags, List.append_assoc]

/-- C9: the check is a total function of the tree (both passes are
structurally recursive, so they terminate and cannot fail); an empty module
or script yields no diagnostics, and so does any tree whose inventory holds
no function declaration and no `var`-kind variable declaration. -/
theorem C9_total_no_decls_no_diags :
    lintDiags (Ast.script AstL.nil) = []
    ∧ lintDiags (Ast.module AstL.nil) = []
    ∧ ∀ p : Ast, ((lintInv p).all fun e => !qualTag e.tag) = true →
        lintDiags p = [] := by
  refine ⟨by decide, by decide, fun p hall => ?_⟩
  have h := scan_eq_A (collectA p) false Pos.innerPos p
  unfold lintDiags
  rw [h, List.filterMap_eq_nil_iff]
  intro e he
  have hne := (List.all_eq_true.mp hall) e he
  cases htag : e.tag with
  | fnTag =>
    rw [htag] at hne
    simp [qualTag] at hne
  | varTag k =>
    cases k with
    | varKind =>
      rw [htag] at hne
      simp [qualTag, isVarKind] at hne
    | letKind => simp [emit, htag]
    | constKind => simp [emit, htag]
  | defaultFnTag => simp [emit, htag]

/-- C9 witness: a tree with a single `let` declaration satisfies the
no-qualifying-declaration hypothesis and yields zero diagnostics. -/
theorem C9_witness :
    ((lintInv onlyLet).all fun e => !qualTag e.tag) = true
    ∧ lintDiags onlyLet = [] :=
  ⟨by decide, C9_total_no_decls_no_diags.2.2 onlyLet (by decide)⟩

/-- C10: under well-formed spans, a `var`-kind variable declaration in a
`for`/`for-in`/`for-of` loop head is never recorded in the valid set (the
collector only records declarations that are themselves statements of a
root list), so a diagnostic for it is always emitted — even when the loop
statement itself sits directly at the module/script root. -/
theorem C10_for_head_var_always_flagged (p : Ast) (s : Nat)
    (hwf : WfSpans p) (hs : s ∈ forHeadVarSpans p) :
    ¬ s ∈ collectA p ∧ ∃ d ∈ lintDiags p, d.span = s
      ∧ ∃ bb : Bool, d = mkDiag bb s "variable" := by
  simp only [forHeadVarSpans, List.mem_map, List.mem_filter, Bool.and_eq_true,
    decide_eq_true_eq] at hs
  obtain ⟨e', ⟨he', htag', hpos'⟩, hs'⟩ := hs
  have hnv : ¬ s ∈ collectA p := by
    intro hmem
    obtain ⟨e, he, hspan, hg⟩ := (collect_mem_iff p s).1 hmem
    have hee : e = e' := entry_unique p hwf e e' he he' (by rw [hspan, hs'])
    rw [hee] at hg
    simp [goodEntry, htag', hpos', rootPos, isVarKind] at hg
  refine ⟨hnv, mkDiag e'.inFn s "variable", ?_, by simp [mkDiag], ⟨e'.inFn, rfl⟩⟩
  have h := scan_eq_A (collectA p) false Pos.innerPos p
  unfold lintDiags
  rw [h]
  refine List.mem_filterMap.mpr ⟨e', he', ?_⟩
  simp [emit, htag', hs', hnv]

/-- C10 witness: in `"for (var a;;);"` at the script root, span 5 is a
for-head `var` declaration, is absent from the valid set, and is flagged. -/
theorem C10_witness :
    WfSpans forEx ∧ 5 ∈ forHeadVarSpans forEx
    ∧ ¬ 5 ∈ collectA forEx
    ∧ ∃ d ∈ lintDiags forEx, d.span = 5
        ∧ ∃ bb : Bool, d = mkDiag bb 5 "variable" := by
  have h := C10_for_head_var_always_flagged forEx 5 (by decide) (by decide)
  exact ⟨by decide, by decide, h.1, h.2⟩

end NoInnerDecl
